import Mathlib

/-!
Verification development for the `rubin` networked key-value store.

The repository contains two generations of the library:
* `src/rubin/` — the current crate (wire parser `net/parser.rs`, connection
  handler `net/server/mod.rs`, store `store/mod.rs` + `store/mem/mod.rs`),
  embedded below in namespace `Rubin`;
* `src/src/` — the earlier layout (persistence wrapper
  `store/persistence/mod.rs` + `file_handling.rs`, plain-`HashMap` store
  `store/mod.rs`), embedded in namespace `RubinSrc`.

Rust strings are modelled as Lean `String` (a wrapper around `List Char`);
`str::split` with the two separators actually used (`"::"` and `' '`) is
embedded as the structural recursions `splitColons` / `splitSpaces`, which
reproduce Rust's leftmost, non-overlapping splitting (in particular
`"".split(p)` yields `[""]`).  `HashMap<String, String>` is modelled as an
association list in insertion order with no duplicate keys; `HashMap::insert`
replaces the value of an existing key in place.  `io::Result` is modelled as
`Except IoError`.
-/

instance {ε α : Type} [DecidableEq ε] [DecidableEq α] : DecidableEq (Except ε α) := by
  intro x y
  cases x <;> cases y
  case ok.ok a b =>
    exact if h : a = b then .isTrue (by rw [h]) else .isFalse (by simp [h])
  case error.error a b =>
    exact if h : a = b then .isTrue (by rw [h]) else .isFalse (by simp [h])
  all_goals exact .isFalse (by simp)

namespace Rubin

/-- Model of `std::io::Error` (its structure is never inspected by the code
under verification, only whether a result is `Ok` or `Err`). -/
structure IoError where
  msg : String
deriving DecidableEq, Repr

/-- Embedding of `str::split("::")` from `net/parser.rs` (`parse_request`,
`parse_response`): split on the two-character separator `"::"`, leftmost
match first, non-overlapping.  `acc` holds the (reversed) characters of the
segment currently being read. -/
def splitColons (acc : List Char) : List Char → List (List Char)
  | [] => [acc.reverse]
  | [c] => [(c :: acc).reverse]
  | c₁ :: c₂ :: rest =>
    if c₁ = ':' ∧ c₂ = ':' then acc.reverse :: splitColons [] rest
    else splitColons (c₁ :: acc) (c₂ :: rest)

/-- Embedding of `str::split(' ')` from `net/parser.rs`: split on a single
space, keeping empty segments, as Rust does. -/
def splitSpaces (acc : List Char) : List Char → List (List Char)
  | [] => [acc.reverse]
  | c :: rest =>
    if c = ' ' then acc.reverse :: splitSpaces [] rest
    else splitSpaces (c :: acc) rest

/-- Embedding of `req.split("::").collect::<Vec<String>>()` at the `String` level. -/
def splitOnColons (s : String) : List String :=
  (splitColons [] s.data).map String.mk

/-- Embedding of `s.split(' ').collect::<Vec<String>>()` at the `String` level. -/
def splitOnSpaces (s : String) : List String :=
  (splitSpaces [] s.data).map String.mk

/-- ASCII fragment of `char::to_uppercase`, the only fragment exercised by
the opcode vocabulary (`Operation::from_string` compares the uppercased
token against ASCII literals). -/
def charUpper (c : Char) : Char :=
  if 'a' ≤ c ∧ c ≤ 'z' then Char.ofNat (c.toNat - 32) else c

/-- Embedding of `str::to_uppercase` (ASCII fragment, see `charUpper`). -/
def upperStr (s : String) : String :=
  ⟨s.data.map charUpper⟩

/-- Embedding of `Operation` from `net/parser.rs`. -/
inductive Operation where
  | StringSet
  | StringGet
  | StringRemove
  | StringClear
  | Incr
  | Decr
  | Dump
  | Noop
  | Error
deriving DecidableEq, Repr

/-- Embedding of `Operation::from_string` from `net/parser.rs`: uppercase the token, then
match it against the opcode vocabulary, any other token mapping to
`Operation::Error`. -/
def Operation.from_string (op : String) : Operation :=
  match upperStr op with
  | "SET" => .StringSet
  | "GET" => .StringGet
  | "CLR" => .StringClear
  | "RM" => .StringRemove
  | "INCR" => .Incr
  | "DECR" => .Decr
  | "NOOP" => .Noop
  | "DUMP" => .Dump
  | _ => .Error

/-- The `Display` impl for `Operation` from `net/parser.rs`. -/
def Operation.display : Operation → String
  | .StringSet => "SET"
  | .StringGet => "GET"
  | .StringRemove => "RM"
  | .StringClear => "CLR"
  | .Incr => "INCR"
  | .Decr => "DECR"
  | .Error => "ERR"
  | .Noop => "NOOP"
  | .Dump => "DUMP"

/-- Embedding of `MessageError` from `errors/mod.rs`. -/
inductive MessageError where
  | InvalidFormat (msg : String)
  | InvalidMessage (msg : String)
deriving DecidableEq, Repr

/-- Embedding of `Message` from `net/parser.rs`. -/
structure Message where
  op : Operation
  args : List String
deriving DecidableEq, Repr

/-- Embedding of `Message::validate` from `net/parser.rs`: `StringSet` needs at least two
arguments; `StringGet`/`StringRemove`/`Dump`/`Incr`/`Decr` need exactly one;
`StringClear`/`Noop` always validate; the remaining case (`Error`) falls
through the `_ => {}` arm leaving `valid = false`. -/
def Message.validate (m : Message) : Bool :=
  match m.op with
  | .StringSet => decide (2 ≤ m.args.length)
  | .StringGet | .StringRemove | .Dump | .Incr | .Decr => decide (m.args.length = 1)
  | .StringClear | .Noop => true
  | .Error => false

/-- Embedding of `Vec::join(" ")`, used by `create_request`. -/
def joinSpace : List String → String
  | [] => ""
  | [x] => x
  | x :: xs => x ++ " " ++ joinSpace xs

/-- Embedding of `create_request` from `net/parser.rs`:
`format!("{}::{}", op_code, args.join(" "))`. -/
def create_request (op_code : Operation) (args : List String) : String :=
  op_code.display ++ "::" ++ joinSpace args

/-- Embedding of `parse_request` from `net/parser.rs`.  Rust indexes `r_split[0]`, which
cannot panic because `split` always yields at least one segment (lemma
`splitColons_ne_nil`); the embedding uses `headD`/`getD` accordingly. -/
def parse_request (req : String) : Except MessageError Message :=
  let r_split := splitOnColons req
  let first := r_split.headD ""
  let op := Operation.from_string first
  if op = .Error then
    .error (.InvalidFormat ("invalid operation: " ++ first))
  else if r_split.length < 2 then
    .error (.InvalidFormat "not enough arguments for operation")
  else
    let args := splitOnSpaces (r_split.getD 1 "")
    let msg : Message := ⟨op, args⟩
    if msg.validate then .ok msg
    else .error (.InvalidMessage "message failed validation")

/-- Embedding of `HashMap::insert` on the association-list model: replace the value of an
existing key in place, otherwise append the new binding. -/
def mapInsert (key value : String) : List (String × String) → List (String × String)
  | [] => [(key, value)]
  | (k, v) :: rest =>
    if k = key then (k, value) :: rest else (k, v) :: mapInsert key value rest

/-- Embedding of `HashMap::get` on the association-list model. -/
def mapLookup (key : String) : List (String × String) → Option String
  | [] => none
  | (k, v) :: rest => if k = key then some v else mapLookup key rest

/-- Embedding of `HashMap::remove` on the association-list model: drop the first binding
of `key`. -/
def mapDelete (key : String) : List (String × String) → List (String × String)
  | [] => []
  | (k, v) :: rest => if k = key then rest else (k, v) :: mapDelete key rest

/-- Embedding of `InnerStore<String>` from `store/mod.rs` (the generic parameter is only
ever instantiated at `T = String` by `MemStore`; `T::default()` is `""`). -/
structure InnerStore where
  inner : List (String × String)
deriving DecidableEq, Repr

/-- Embedding of `InnerStore::insert`: unconditional upsert, always returns `Ok(())`. -/
def InnerStore.insert (s : InnerStore) (key value : String) :
    Except IoError Unit × InnerStore :=
  (.ok (), ⟨mapInsert key value s.inner⟩)

/-- Embedding of `InnerStore::retrieve`: the stored value, or `T::default()` (the empty
string) when the key is absent; always `Ok`. -/
def InnerStore.retrieve (s : InnerStore) (key : String) : Except IoError String :=
  .ok ((mapLookup key s.inner).getD "")

/-- Embedding of `InnerStore::remove`: removes and returns the prior value, or the empty
default when absent; always `Ok`. -/
def InnerStore.remove (s : InnerStore) (key : String) :
    Except IoError String × InnerStore :=
  (.ok ((mapLookup key s.inner).getD ""), ⟨mapDelete key s.inner⟩)

/-- Embedding of `InnerStore::clear`: empties the map; always `Ok`. -/
def InnerStore.clear (_ : InnerStore) : Except IoError Unit × InnerStore :=
  (.ok (), ⟨[]⟩)

/-- Embedding of `MemStore` from `store/mem/mod.rs`. -/
structure MemStore where
  strings : InnerStore
deriving DecidableEq, Repr

/-- Embedding of `MemStore::insert_string`. -/
def MemStore.insert_string (s : MemStore) (key value : String) :
    Except IoError Unit × MemStore :=
  let (r, st) := s.strings.insert key value
  (r, ⟨st⟩)

/-- Embedding of `MemStore::get_string`. -/
def MemStore.get_string (s : MemStore) (key : String) : Except IoError String :=
  s.strings.retrieve key

/-- Embedding of `MemStore::remove_string`. -/
def MemStore.remove_string (s : MemStore) (key : String) :
    Except IoError String × MemStore :=
  let (r, st) := s.strings.remove key
  (r, ⟨st⟩)

/-- Embedding of `MemStore::clear_strings`. -/
def MemStore.clear_strings (s : MemStore) : Except IoError Unit × MemStore :=
  let (r, st) := s.strings.clear
  (r, ⟨st⟩)

/-- Embedding of `send_response` from `net/server/mod.rs`:
`format!("{}::{}\n", code, msg)`. -/
def sendResponse (code : Operation) (msg : String) : String :=
  code.display ++ "::" ++ msg ++ "\n"

/-- The dispatch `match message.op` of `handler` in `net/server/mod.rs`.
`message.args[0]` / `args[1]` are embedded as `getD` (validation guarantees
the indices exist on every message produced by `parse_request`).  The `Dump`
arm's disk write is modelled as succeeding; `Incr`, `Decr` and `Noop` fall
into the catch-all `_` arm, which replies `NOOP::nothing to do` and leaves
the store untouched. -/
def dispatch (message : Message) (vault : MemStore) : MemStore × String :=
  match message.op with
  | .StringSet =>
    let key := message.args.getD 0 ""
    let value := message.args.getD 1 ""
    let (_, vault') := vault.insert_string key value
    (vault', sendResponse .StringSet "OK")
  | .StringGet =>
    let key := message.args.getD 0 ""
    match vault.get_string key with
    | .ok value => (vault, sendResponse .StringGet value)
    | .error _ => (vault, "")
  | .StringRemove =>
    let key := message.args.getD 0 ""
    let (r, vault') := vault.remove_string key
    match r with
    | .ok value => (vault', sendResponse .StringRemove value)
    | .error _ => (vault', "")
  | .StringClear =>
    let (r, vault') := vault.clear_strings
    match r with
    | .ok _ => (vault', sendResponse .StringClear "OK")
    | .error _ => (vault', "")
  | .Dump => (vault, sendResponse .Dump "OK")
  | _ => (vault, sendResponse .Noop "nothing to do")

/-- Embedding of `handler` from `net/server/mod.rs`, from the point where the (already
read and right-trimmed) request text is parsed: on a parse error the store is
never touched and an `ERR::…` response carrying the failure reason is sent;
on success the message is dispatched against the locked store.  The result is
the store after the request together with the response text written back. -/
def handler (msg : String) (store : MemStore) : MemStore × String :=
  match parse_request msg with
  | .error e =>
    match e with
    | .InvalidMessage m | .InvalidFormat m => (store, sendResponse .Error m)
  | .ok message => dispatch message store

/-- A character list free of two adjacent colons: splitting it on `"::"`
leaves it in one piece. -/
def noColonPair : List Char → Bool
  | c₁ :: c₂ :: rest => (!(c₁ == ':' && c₂ == ':')) && noColonPair (c₂ :: rest)
  | _ => true

/-- One request against the in-memory store: the four operations the
`MemStore` API exposes (used to state that no sequence of store operations
can produce an error). -/
inductive StoreOp where
  | ins (k v : String)
  | get (k : String)
  | rem (k : String)
  | clr
deriving DecidableEq, Repr

/-- Run one `StoreOp` through the corresponding `MemStore` method. -/
def applyOp (op : StoreOp) (s : MemStore) : Except IoError String × MemStore :=
  match op with
  | .ins k v =>
    let (r, s') := s.insert_string k v
    (r.map (fun _ => "OK"), s')
  | .get k => (s.get_string k, s)
  | .rem k => s.remove_string k
  | .clr =>
    let (r, s') := s.clear_strings
    (r.map (fun _ => "OK"), s')

/-- Returns `true` iff every operation in the sequence returns `Ok`. -/
def opsAllOk : List StoreOp → MemStore → Bool
  | [], _ => true
  | op :: rest, s =>
    match applyOp op s with
    | (.ok _, s') => opsAllOk rest s'
    | (.error _, _) => false

end Rubin

namespace RubinSrc

/-- Embedding of `MemStore` from the earlier tree's `store/mod.rs`: a plain
`HashMap<String, String>` under the field `strings` (modelled as an
association list in insertion order). -/
structure MemStore where
  strings : List (String × String)
deriving DecidableEq, Repr

/-- Lower-case hexadecimal digit, as written by `serde_json`'s `\u00xx`
escapes. -/
def hexDigit : Nat → Char
  | 0 => '0' | 1 => '1' | 2 => '2' | 3 => '3'
  | 4 => '4' | 5 => '5' | 6 => '6' | 7 => '7'
  | 8 => '8' | 9 => '9' | 10 => 'a' | 11 => 'b'
  | 12 => 'c' | 13 => 'd' | 14 => 'e' | 15 => 'f'
  | _ => '0'

/-- Embedding of `serde_json`'s JSON string escaping of one character: `"` and `\` are
backslash-escaped, the control characters with short forms use them
(`\b \f \n \r \t`), any other control character below `0x20` becomes
`\u00xx`, and everything else is emitted verbatim. -/
def escChar (c : Char) : List Char :=
  if c = '\"' then ['\\', '\"']
  else if c = '\\' then ['\\', '\\']
  else if c = '\n' then ['\\', 'n']
  else if c = '\r' then ['\\', 'r']
  else if c = '\t' then ['\\', 't']
  else if c.toNat = 8 then ['\\', 'b']
  else if c.toNat = 12 then ['\\', 'f']
  else if c.toNat < 32 then
    ['\\', 'u', '0', '0', hexDigit (c.toNat / 16), hexDigit (c.toNat % 16)]
  else [c]

/-- Escape every character of a string body. -/
def escList : List Char → List Char
  | [] => []
  | c :: cs => escChar c ++ escList cs

/-- A JSON string literal: quote, escaped body, quote. -/
def encStrD (s : List Char) : List Char :=
  '\"' :: escList s ++ ['\"']

/-- One pretty-printed object entry `    "key": "value"` (two-space indent,
nesting depth 2). -/
def printEntryD (e : List Char × List Char) : List Char :=
  ' ' :: ' ' :: ' ' :: ' ' :: encStrD e.1 ++ ':' :: ' ' :: encStrD e.2

/-- The pretty-printed entry list, `,\n`-separated. -/
def printEntriesD : List (List Char × List Char) → List Char
  | [] => []
  | [e] => printEntryD e
  | e :: es => printEntryD e ++ ',' :: '\n' :: printEntriesD es

/-- The pretty-printed inner object holding the string map (`serde_json`
prints the empty map as a bare pair of braces). -/
def printObjD (m : List (List Char × List Char)) : List Char :=
  match m with
  | [] => ['\x7b', '\x7d']
  | _ => '\x7b' :: '\n' :: printEntriesD m ++ '\n' :: ' ' :: ' ' :: ['\x7d']

/-- Embedding of `serde_json::to_string_pretty` for `MemStore` (derived `Serialize`):
an object with the single field `strings` holding the map, indented by two
spaces. -/
def to_string_pretty (ms : MemStore) : String :=
  ⟨'\x7b' :: '\n' :: ' ' :: ' ' :: encStrD "strings".data ++ ':' :: ' ' ::
    printObjD (ms.strings.map (fun e => (e.1.data, e.2.data))) ++ '\n' :: ['\x7d']⟩

/-- JSON whitespace. -/
def isWs (c : Char) : Bool :=
  c = ' ' || c = '\n' || c = '\t' || c = '\r'

/-- Skip leading JSON whitespace. -/
def skipWs : List Char → List Char
  | [] => []
  | c :: r => if isWs c then skipWs r else c :: r

/-- Value of one hexadecimal digit (either case), as accepted by a JSON
`\uXXXX` escape. -/
def hexVal (c : Char) : Option Nat :=
  if '0' ≤ c ∧ c ≤ '9' then some (c.toNat - 48)
  else if 'a' ≤ c ∧ c ≤ 'f' then some (c.toNat - 87)
  else if 'A' ≤ c ∧ c ≤ 'F' then some (c.toNat - 55)
  else none

/-- Decoding of a single-character JSON escape (`\"`, `\\`, `\/`, `\n`,
`\r`, `\t`, `\b`, `\f`). -/
def unescape (e : Char) : Option Char :=
  if e = '\"' then some '\"'
  else if e = '\\' then some '\\'
  else if e = '/' then some '/'
  else if e = 'n' then some '\n'
  else if e = 'r' then some '\r'
  else if e = 't' then some '\t'
  else if e = 'b' then some '\x08'
  else if e = 'f' then some '\x0c'
  else none

/-- Body of a JSON string literal (after the opening quote): stops at the
closing quote, decodes the standard escapes, rejects unescaped control
characters and lone surrogate escapes (surrogate pairs are out of the model's
scope — the printer never produces them). -/
def parseStrBody : List Char → Option (List Char × List Char)
  | [] => none
  | c :: rest =>
    if c = '\"' then some ([], rest)
    else if c = '\\' then
      match rest with
      | 'u' :: h₁ :: h₂ :: h₃ :: h₄ :: r =>
        match hexVal h₁, hexVal h₂, hexVal h₃, hexVal h₄ with
        | some a, some b, some cc, some d =>
          let n := 4096 * a + 256 * b + 16 * cc + d
          if 0xD800 ≤ n ∧ n < 0xE000 then none
          else (parseStrBody r).map (fun p => (Char.ofNat n :: p.1, p.2))
        | _, _, _, _ => none
      | e :: r =>
        match unescape e with
        | some u => (parseStrBody r).map (fun p => (u :: p.1, p.2))
        | none => none
      | [] => none
    else if c.toNat < 32 then none
    else (parseStrBody rest).map (fun p => (c :: p.1, p.2))

/-- A JSON string literal including its opening quote. -/
def parseJStr : List Char → Option (List Char × List Char)
  | '\"' :: rest => parseStrBody rest
  | _ => none

/-- The entries of a non-empty JSON object of strings, consuming the closing
brace; `fuel` bounds the number of entries (one unit per entry). -/
def parseEntries : Nat → List Char → Option (List (List Char × List Char) × List Char)
  | 0, _ => none
  | fuel + 1, input =>
    match parseJStr (skipWs input) with
    | none => none
    | some (k, r₁) =>
      match skipWs r₁ with
      | ':' :: r₂ =>
        match parseJStr (skipWs r₂) with
        | none => none
        | some (v, r₃) =>
          match skipWs r₃ with
          | ',' :: r₄ =>
            match parseEntries fuel r₄ with
            | some (tl, rest) => some ((k, v) :: tl, rest)
            | none => none
          | '\x7d' :: r₄ => some ([(k, v)], r₄)
          | _ => none
      | _ => none

/-- A JSON object of strings (the inner `strings` map). -/
def parseObj (fuel : Nat) (input : List Char) :
    Option (List (List Char × List Char) × List Char) :=
  match skipWs input with
  | c :: r =>
    if c = '\x7b' then
      match skipWs r with
      | d :: r₂ => if d = '\x7d' then some ([], r₂) else parseEntries fuel r
      | [] => parseEntries fuel r
    else none
  | [] => none

/-- Embedding of `serde_json::from_str::<MemStore>` (derived `Deserialize`), specialised
to the shape the store serializes to: a single object with field `strings`
holding an object of strings, with arbitrary interleaved whitespace and
nothing but whitespace after the closing brace. -/
def parseStoreD (l : List Char) : Option (List (List Char × List Char)) :=
  match skipWs l with
  | '\x7b' :: r =>
    match parseJStr (skipWs r) with
    | some (f, r₁) =>
      if f = "strings".data then
        match skipWs r₁ with
        | ':' :: r₂ =>
          match parseObj (l.length + 1) r₂ with
          | some (m, r₃) =>
            match skipWs r₃ with
            | '\x7d' :: r₄ => if skipWs r₄ = [] then some m else none
            | _ => none
          | none => none
        | _ => none
      else none
    | none => none
  | _ => none

/-- Embedding of `serde_json::from_str::<MemStore>` at the `String` level. -/
def from_str (s : String) : Option MemStore :=
  (parseStoreD s.data).map
    (fun m => ⟨m.map (fun e => (String.mk e.1, String.mk e.2))⟩)

/-- Embedding of `PersistentStore` from the earlier tree's `store/persistence/mod.rs`
(the storage directory is fixed; the single snapshot file
`<dir>/rubinstore.json` is modelled as an `Option String` — `none` when the
file does not exist). -/
structure PersistentStore where
  store : MemStore
  write_on_update : Bool
deriving DecidableEq, Repr

/-- Embedding of `PersistentStore::write` via `file_handling::write_store`: serialize the
whole store and overwrite the snapshot file. -/
def PersistentStore.write (ps : PersistentStore) (_fs : Option String) :
    Option String :=
  some (to_string_pretty ps.store)

/-- Embedding of `file_handling::load_store`: open the snapshot with `create(true)`
(creating an empty file when absent) and return its contents. -/
def load_store (fs : Option String) : String × Option String :=
  match fs with
  | none => ("", some "")
  | some c => (c, some c)

/-- Embedding of `PersistentStore::load`: empty contents leave the store untouched;
otherwise the contents must deserialize, the parsed `strings` map replacing
the store's (`serde_json` failures surface as the `Err` of the returned
`io::Result`). -/
def PersistentStore.load (ps : PersistentStore) (fs : Option String) :
    Except String (PersistentStore × Option String) :=
  let (contents, fs') := load_store fs
  if contents = "" then .ok (ps, fs')
  else
    match from_str contents with
    | some vault => .ok ({ ps with store := ⟨vault.strings⟩ }, fs')
    | none => .error "expected value"

/-- Outcome of `PersistentStore::from_existing`: a constructed store, an
`Err` returned to the caller, or a panic (`expect`). -/
inductive ConstructOutcome where
  | ok (ps : PersistentStore) (fs : Option String)
  | ioErr (e : String)
  | panicked (msg : String)
deriving DecidableEq, Repr

/-- Embedding of `PersistentStore::from_existing`: `Self::new` (directory creation
modelled as succeeding, store empty, `write_on_update = false`) followed by
`load()` — whose result is unwrapped with
`.expect("unable to load store")`, so a load failure panics instead of
returning `Err`. -/
def from_existing (fs : Option String) : ConstructOutcome :=
  let fresh : PersistentStore := ⟨⟨[]⟩, false⟩
  match fresh.load fs with
  | .ok (ps, fs') => .ok ps fs'
  | .error _ => .panicked "unable to load store"

end RubinSrc

namespace Rubin

theorem splitColons_ne_nil (acc l : List Char) : splitColons acc l ≠ [] := by
  match l with
  | [] => simp [splitColons]
  | [c] => simp [splitColons]
  | c₁ :: c₂ :: rest =>
    rw [splitColons]
    split
    · simp
    · exact splitColons_ne_nil (c₁ :: acc) (c₂ :: rest)

theorem noColonPair_cons_cons (c₁ c₂ : Char) (r : List Char) :
    noColonPair (c₁ :: c₂ :: r) = true ↔
      (¬(c₁ = ':' ∧ c₂ = ':')) ∧ noColonPair (c₂ :: r) = true := by
  simp [noColonPair]
  tauto

theorem noColonPair_tail {c : Char} {l : List Char}
    (h : noColonPair (c :: l) = true) : noColonPair l = true := by
  cases l with
  | nil => rfl
  | cons d r => exact ((noColonPair_cons_cons c d r).mp h).2

theorem splitColons_sep (acc rest : List Char) :
    splitColons acc (':' :: ':' :: rest) = acc.reverse :: splitColons [] rest := by
  simp [splitColons]

theorem splitColons_append (l : List Char) (h : ':' ∉ l) :
    ∀ (acc rest : List Char),
      splitColons acc (l ++ rest) = splitColons (l.reverse ++ acc) rest := by
  induction l with
  | nil => intro acc rest; simp
  | cons c l' ih =>
    intro acc rest
    have hc : c ≠ ':' := fun hc => h (hc ▸ List.mem_cons_self c l')
    have h' : ':' ∉ l' := fun hm => h (List.mem_cons_of_mem c hm)
    cases hl : l' ++ rest with
    | nil =>
      have ⟨hl', hr⟩ := List.append_eq_nil.mp hl
      subst hl'; subst hr
      simp [splitColons]
    | cons d ds =>
      have step : splitColons acc (c :: l' ++ rest) = splitColons (c :: acc) (l' ++ rest) := by
        rw [List.cons_append, hl, splitColons, if_neg (fun hcd => hc hcd.1)]
      rw [step, ih h' (c :: acc) rest, List.reverse_cons, List.append_assoc,
        List.singleton_append]

theorem splitColons_nocolonpair :
    ∀ (l acc : List Char), noColonPair l = true →
      splitColons acc l = [acc.reverse ++ l]
  | [], acc, _ => by simp [splitColons]
  | [c], acc, _ => by simp [splitColons]
  | c₁ :: c₂ :: r, acc, h => by
    obtain ⟨h1, h2⟩ := (noColonPair_cons_cons c₁ c₂ r).mp h
    rw [splitColons, if_neg h1,
      splitColons_nocolonpair (c₂ :: r) (c₁ :: acc) h2]
    simp

theorem splitSpaces_sep (acc rest : List Char) :
    splitSpaces acc (' ' :: rest) = acc.reverse :: splitSpaces [] rest := by
  simp [splitSpaces]

theorem splitSpaces_append (l : List Char) (h : ' ' ∉ l) :
    ∀ (acc rest : List Char),
      splitSpaces acc (l ++ rest) = splitSpaces (l.reverse ++ acc) rest := by
  induction l with
  | nil => intro acc rest; simp
  | cons c l' ih =>
    intro acc rest
    have hc : c ≠ ' ' := fun hc => h (hc ▸ List.mem_cons_self c l')
    have h' : ' ' ∉ l' := fun hm => h (List.mem_cons_of_mem c hm)
    rw [List.cons_append, splitSpaces, if_neg hc, ih h' (c :: acc) rest,
      List.reverse_cons, List.append_assoc, List.singleton_append]

theorem splitSpaces_last (l : List Char) (h : ' ' ∉ l) (acc : List Char) :
    splitSpaces acc l = [acc.reverse ++ l] := by
  have := splitSpaces_append l h acc []
  rw [List.append_nil] at this
  rw [this, splitSpaces]
  simp

theorem noColonPair_cons_sp (b : List Char) (hb : noColonPair b = true) :
    noColonPair (' ' :: b) = true := by
  cases b with
  | nil => rfl
  | cons d r =>
    rw [noColonPair_cons_cons]
    exact ⟨fun hcd => by simpa using hcd.1, hb⟩

theorem noColonPair_append_sp :
    ∀ (a b : List Char), noColonPair a = true → noColonPair b = true →
      noColonPair (a ++ ' ' :: b) = true
  | [], b, _, hb => by
    rw [List.nil_append]
    exact noColonPair_cons_sp b hb
  | [c], b, _, hb => by
    rw [List.singleton_append, noColonPair_cons_cons]
    exact ⟨fun hcd => by simpa using hcd.2, noColonPair_cons_sp b hb⟩
  | c₁ :: c₂ :: a', b, ha, hb => by
    obtain ⟨h1, h2⟩ := (noColonPair_cons_cons c₁ c₂ a').mp ha
    have hrec := noColonPair_append_sp (c₂ :: a') b h2 hb
    simp only [List.cons_append] at hrec ⊢
    rw [noColonPair_cons_cons]
    exact ⟨h1, hrec⟩

theorem joinSpace_data_cons (x y : String) (ts : List String) :
    (joinSpace (x :: y :: ts)).data = x.data ++ ' ' :: (joinSpace (y :: ts)).data := by
  show (x ++ " " ++ joinSpace (y :: ts)).data = _
  simp [String.data_append]

theorem noColonPair_joinSpace :
    ∀ (ts : List String), (∀ t ∈ ts, noColonPair t.data = true) →
      noColonPair (joinSpace ts).data = true
  | [], _ => rfl
  | [x], h => h x (List.mem_singleton.mpr rfl)
  | x :: y :: ts, h => by
    rw [joinSpace_data_cons]
    exact noColonPair_append_sp x.data (joinSpace (y :: ts)).data
      (h x (List.mem_cons_self x _))
      (noColonPair_joinSpace (y :: ts) (fun t ht => h t (List.mem_cons_of_mem x ht)))

theorem splitSpaces_joinSpace :
    ∀ (ts : List String), ts ≠ [] → (∀ t ∈ ts, ' ' ∉ t.data) →
      splitSpaces [] (joinSpace ts).data = ts.map String.data
  | [], hne, _ => absurd rfl hne
  | [x], _, h => by
    show splitSpaces [] x.data = _
    rw [splitSpaces_last x.data (h x (List.mem_singleton.mpr rfl)) []]
    simp
  | x :: y :: ts, _, h => by
    rw [joinSpace_data_cons,
      splitSpaces_append x.data (h x (List.mem_cons_self x _)) [] _,
      splitSpaces_sep,
      splitSpaces_joinSpace (y :: ts) (by simp) (fun t ht => h t (List.mem_cons_of_mem x ht))]
    simp

theorem stringMk_data (s : String) : String.mk s.data = s := rfl

theorem splitOnSpaces_joinSpace (ts : List String) (hne : ts ≠ [])
    (h : ∀ t ∈ ts, ' ' ∉ t.data) : splitOnSpaces (joinSpace ts) = ts := by
  unfold splitOnSpaces
  rw [splitSpaces_joinSpace ts hne h, List.map_map]
  have hid : String.mk ∘ String.data = id := funext fun s => stringMk_data s
  rw [hid, List.map_id]

theorem splitOnColons_create (D : String) (hD : ':' ∉ D.data) (J : String)
    (hJ : noColonPair J.data = true) :
    splitOnColons (D ++ "::" ++ J) = [D, J] := by
  unfold splitOnColons
  have hdata : (D ++ "::" ++ J).data = D.data ++ ':' :: ':' :: J.data := by
    simp [String.data_append]
  rw [hdata, splitColons_append D.data hD [] _, splitColons_sep,
    splitColons_nocolonpair J.data [] hJ]
  simp [stringMk_data]

/-- Claim C4 (amended): `parse_request (create_request op args)` reconstructs
`⟨op, args⟩` whenever `args` satisfies the operation's arity rule
(`Message.validate`), is non-empty, and each argument contains no space and
no two adjacent colons. -/
theorem request_roundtrip (op : Operation) (args : List String)
    (hv : (Message.mk op args).validate = true)
    (hne : args ≠ [])
    (htok : ∀ t ∈ args, ' ' ∉ t.data ∧ noColonPair t.data = true) :
    parse_request (create_request op args) = .ok ⟨op, args⟩ := by
  have hJ : noColonPair (joinSpace args).data = true :=
    noColonPair_joinSpace args (fun t ht => (htok t ht).2)
  have hsp : splitOnSpaces (joinSpace args) = args :=
    splitOnSpaces_joinSpace args hne (fun t ht => (htok t ht).1)
  have hop : op ≠ .Error := by
    intro h
    subst h
    simp [Message.validate] at hv
  have hD : ':' ∉ op.display.data := by
    cases op <;> decide
  have hsplit : splitOnColons (create_request op args) = [op.display, joinSpace args] :=
    splitOnColons_create op.display hD (joinSpace args) hJ
  have hfrom : Operation.from_string op.display = op := by
    cases op <;> decide
  simp only [parse_request, hsplit, List.headD_cons, hfrom, if_neg hop,
    List.length_cons, List.length_nil, List.getD_cons_succ, List.getD_cons_zero,
    hsp, hv, if_pos, Nat.lt_irrefl, if_false, ite_true, ite_false]

/-- Claim C4 counterexample: the round-trip fails as universally stated — for
`Noop` with the empty argument list (which satisfies the arity rule),
encoding then decoding yields the argument list `[""]`, not `[]`. -/
theorem request_roundtrip_counterexample :
    (Message.mk .Noop []).validate = true ∧
      parse_request (create_request .Noop []) = .ok ⟨.Noop, [""]⟩ ∧
      parse_request (create_request .Noop []) ≠ .ok ⟨.Noop, []⟩ := by
  decide

/-- Witness for C4 at a concrete operation and argument list. -/
theorem request_roundtrip_witness :
    parse_request (create_request .StringSet ["user:1000", "value"]) =
      .ok ⟨.StringSet, ["user:1000", "value"]⟩ :=
  request_roundtrip .StringSet ["user:1000", "value"] (by decide) (by decide)
    (by decide)

/-- Claim C7 (amended): `Message::validate` imposes no constraint at all on
`StringClear` and `Noop` messages — any argument count (zero or more) passes
validation; such messages are accepted, not rejected with `InvalidMessage`. -/
theorem clear_noop_accept_any_args : ∀ args : List String,
    (Message.mk .StringClear args).validate = true ∧
      (Message.mk .Noop args).validate = true := by
  intro args
  exact ⟨rfl, rfl⟩

/-- Claim C7 counterexample: the well-framed Clear request `CLR::noop`
(exactly what the bundled client's `clear_strings` sends) has a non-empty
argument list and is accepted by the decoder, not rejected. -/
theorem clear_noop_counterexample :
    parse_request "CLR::noop" = .ok ⟨.StringClear, ["noop"]⟩ := by
  decide

theorem mapLookup_mapInsert (k v : String) :
    ∀ l : List (String × String), mapLookup k (mapInsert k v l) = some v := by
  intro l
  induction l with
  | nil => simp [mapInsert, mapLookup]
  | cons p rest ih =>
    obtain ⟨k', v'⟩ := p
    by_cases h : k' = k
    · simp [mapInsert, mapLookup, h]
    · simp [mapInsert, mapLookup, h, ih]

theorem get_after_insert (s : MemStore) (k v : String) :
    ((s.insert_string k v).2).get_string k = .ok v := by
  show Except.ok ((mapLookup k (mapInsert k v s.strings.inner)).getD "") = .ok v
  rw [mapLookup_mapInsert k v s.strings.inner]
  rfl

/-- Claim C8: inserting `v` under `k` and then getting `k` returns exactly
`v`, on every prior store state — `insert` is an unconditional upsert. -/
theorem insert_then_get (s : MemStore) (k v : String) :
    ((s.insert_string k v).2).get_string k = .ok v := by
  show Except.ok ((mapLookup k (mapInsert k v s.strings.inner)).getD "") = .ok v
  rw [mapLookup_mapInsert k v s.strings.inner]
  rfl

/-- Claim C9: opcode recognition is case-insensitive — `Operation.from_string`
uppercases the token before matching, so any two tokens with the same
uppercasing map to the same operation; in particular `"set"`, `"Set"` and
`"SET"` all map to `StringSet`. -/
theorem opcode_case_insensitive :
    (∀ s t : String, upperStr s = upperStr t →
        Operation.from_string s = Operation.from_string t) ∧
      Operation.from_string "set" = .StringSet ∧
      Operation.from_string "Set" = .StringSet ∧
      Operation.from_string "SET" = .StringSet := by
  refine ⟨?_, by decide, by decide, by decide⟩
  intro s t h
  unfold Operation.from_string
  rw [h]

/-- Witness for C9: `"set"` and `"SET"` uppercase identically, hence decode
to the same operation. -/
theorem opcode_case_insensitive_witness :
    Operation.from_string "set" = Operation.from_string "SET" :=
  opcode_case_insensitive.1 "set" "SET" (by decide)

/-- Claim C10: every in-memory store operation returns `Ok` on every input
(the `io::Result` error branch is unreachable), `get`/`remove` return the
empty-string default for absent keys, and consequently no sequence of store
operations ever produces an error. -/
theorem store_ops_never_error :
    (∀ (s : MemStore) (k v : String), (s.insert_string k v).1 = .ok ()) ∧
      (∀ (s : MemStore) (k : String), ∃ r, s.get_string k = .ok r) ∧
      (∀ (s : MemStore) (k : String), ∃ r, (s.remove_string k).1 = .ok r) ∧
      (∀ s : MemStore, (s.clear_strings).1 = .ok ()) ∧
      (∀ (s : MemStore) (k : String), mapLookup k s.strings.inner = none →
        s.get_string k = .ok "" ∧ (s.remove_string k).1 = .ok "") ∧
      (∀ (ops : List StoreOp) (s : MemStore), opsAllOk ops s = true) := by
  refine ⟨fun s k v => rfl, fun s k => ⟨_, rfl⟩, fun s k => ⟨_, rfl⟩, fun s => rfl,
    fun s k h => ?_, fun ops => ?_⟩
  · constructor
    · show Except.ok ((mapLookup k s.strings.inner).getD "") = .ok ""
      rw [h]
      rfl
    · show Except.ok ((mapLookup k s.strings.inner).getD "") = .ok ""
      rw [h]
      rfl
  · induction ops with
    | nil => intro s; rfl
    | cons op rest ih =>
      intro s
      cases op <;> simp [opsAllOk, applyOp, MemStore.insert_string,
        MemStore.get_string, MemStore.remove_string, MemStore.clear_strings,
        InnerStore.insert, InnerStore.retrieve, InnerStore.remove,
        InnerStore.clear, Except.map] <;> exact ih _

/-- Witness for C10: the absent-key conjuncts discharged on the empty store,
and a concrete operation sequence that runs without error. -/
theorem store_ops_never_error_witness :
    (MemStore.mk ⟨[]⟩).get_string "missing" = .ok "" ∧
      opsAllOk [.ins "a" "1", .get "a", .rem "a", .clr] ⟨⟨[]⟩⟩ = true :=
  ⟨(store_ops_never_error.2.2.2.2.1 ⟨⟨[]⟩⟩ "missing" rfl).1,
    store_ops_never_error.2.2.2.2.2 [.ins "a" "1", .get "a", .rem "a", .clr] ⟨⟨[]⟩⟩⟩

/-- Claim C2 (amended): a decoded `SET` message stores under the key
(`args[0]`) only the first value token (`args[1]`); any further value tokens
are ignored by the handler, and the response is `SET::OK`. -/
theorem set_stores_first_value_token (raw : String) (store : MemStore)
    (m : Message) (hp : parse_request raw = .ok m) (hop : m.op = .StringSet) :
    handler raw store =
      ((store.insert_string (m.args.getD 0 "") (m.args.getD 1 "")).2, "SET::OK\n") ∧
      ((handler raw store).1).get_string (m.args.getD 0 "") =
        .ok (m.args.getD 1 "") := by
  have h1 : handler raw store = dispatch m store := by
    simp [handler, hp]
  have hresp : sendResponse .StringSet "OK" = "SET::OK\n" := rfl
  have h2 : dispatch m store =
      ((store.insert_string (m.args.getD 0 "") (m.args.getD 1 "")).2, "SET::OK\n") := by
    rw [← hresp]
    simp [dispatch, hop]
  refine ⟨h1.trans h2, ?_⟩
  rw [h1, h2]
  exact get_after_insert store _ _

/-- Claim C2 counterexample: `SET::k a b` (a multi-word value) stores only
`"a"` under `"k"`, not the joined value `"a b"`. -/
theorem set_multiword_counterexample :
    ((handler "SET::k a b" ⟨⟨[]⟩⟩).1).get_string "k" = .ok "a" ∧
      ((handler "SET::k a b" ⟨⟨[]⟩⟩).1).get_string "k" ≠ .ok "a b" := by
  decide

/-- Witness for C2 at a concrete multi-word request. -/
theorem set_stores_first_value_token_witness :
    handler "SET::name first second" ⟨⟨[]⟩⟩ =
      (((⟨⟨[]⟩⟩ : MemStore).insert_string "name" "first").2, "SET::OK\n") ∧
      ((handler "SET::name first second" ⟨⟨[]⟩⟩).1).get_string "name" = .ok "first" :=
  set_stores_first_value_token "SET::name first second" ⟨⟨[]⟩⟩
    ⟨.StringSet, ["name", "first", "second"]⟩ (by decide) rfl

/-- Claim C3 (amended): a well-framed request whose leading token is not a
recognized opcode is rejected by `parse_request` with `InvalidFormat`, and
the handler replies with an `ERR` response carrying
`invalid operation: <token>` — the store is left unchanged, but the response
is an `ERR`, not a `NOOP`. -/
theorem unrecognized_opcode_err (token rest : String) (store : MemStore)
    (hbad : Operation.from_string token = .Error)
    (hcolon : ':' ∉ token.data) :
    handler (token ++ "::" ++ rest) store =
      (store, sendResponse .Error ("invalid operation: " ++ token)) := by
  have hdata : (token ++ "::" ++ rest).data = token.data ++ ':' :: ':' :: rest.data := by
    simp [String.data_append]
  have hsplit : splitOnColons (token ++ "::" ++ rest) =
      token :: (splitColons [] rest.data).map String.mk := by
    unfold splitOnColons
    rw [hdata, splitColons_append token.data hcolon [] _, splitColons_sep]
    simp [stringMk_data]
  simp [handler, parse_request, hsplit, hbad]

/-- Claim C3 counterexample: the framed request `FOO::x` with the
unrecognized opcode `FOO` gets an `ERR` response (store untouched), which is
not the `NOOP::nothing to do` response the claim asserts. -/
theorem unrecognized_opcode_counterexample :
    handler "FOO::x" ⟨⟨[]⟩⟩ = (⟨⟨[]⟩⟩, "ERR::invalid operation: FOO\n") ∧
      "ERR::invalid operation: FOO\n" ≠ "NOOP::nothing to do\n" := by
  decide

/-- Witness for C3 at a concrete unrecognized opcode and non-empty store. -/
theorem unrecognized_opcode_err_witness :
    handler ("BADOP" ++ "::" ++ "arg") ⟨⟨[("k", "v")]⟩⟩ =
      (⟨⟨[("k", "v")]⟩⟩, sendResponse .Error ("invalid operation: " ++ "BADOP")) :=
  unrecognized_opcode_err "BADOP" "arg" ⟨⟨[("k", "v")]⟩⟩ (by decide) (by decide)

/-- Claim C1 (behavior of the code at the claim's scenario): the handler has
no `Incr`/`Decr` dispatch arm, so a well-formed `INCR::counter` request —
which parses successfully as `⟨Incr, ["counter"]⟩` — falls into the
catch-all arm: the store is left unchanged (nothing is stored under
`counter`) and the response is `NOOP::nothing to do`, not `INCR::1`. -/
theorem incr_request_noops :
    handler "INCR::counter" ⟨⟨[]⟩⟩ = (⟨⟨[]⟩⟩, "NOOP::nothing to do\n") ∧
      handler "DECR::counter" ⟨⟨[]⟩⟩ = (⟨⟨[]⟩⟩, "NOOP::nothing to do\n") ∧
      parse_request "INCR::counter" = .ok ⟨.Incr, ["counter"]⟩ ∧
      handler "INCR::counter" ⟨⟨[]⟩⟩ ≠ (⟨⟨[("counter", "1")]⟩⟩, "INCR::1\n") := by
  decide

end Rubin

namespace RubinSrc

theorem hexVal_hexDigit (d : Nat) (hd : d < 16) : hexVal (hexDigit d) = some d := by
  interval_cases d <;> decide

theorem parseStrBody_esc :
    ∀ (s rest : List Char), parseStrBody (escList s ++ '\"' :: rest) = some (s, rest)
  | [], rest => by
    rw [escList, List.nil_append, parseStrBody.eq_def]
    simp
  | c :: cs, rest => by
    have ih := parseStrBody_esc cs rest
    rw [escList, List.append_assoc]
    by_cases h1 : c = '\"'
    · subst h1
      simp only [escChar, if_pos rfl, List.cons_append, List.nil_append]
      rw [parseStrBody.eq_def]
      simp [unescape, ih]
    by_cases h2 : c = '\\'
    · subst h2
      simp only [escChar, if_pos rfl, if_neg (by decide : ¬('\\' : Char) = '\"'),
        List.cons_append, List.nil_append]
      rw [parseStrBody.eq_def]
      simp [unescape, ih]
    by_cases h3 : c = '\n'
    · subst h3
      have he : escChar '\n' = ['\\', 'n'] := by decide
      rw [he]
      simp only [List.cons_append, List.nil_append]
      rw [parseStrBody.eq_def]
      simp [unescape, ih]
    by_cases h4 : c = '\r'
    · subst h4
      have he : escChar '\r' = ['\\', 'r'] := by decide
      rw [he]
      simp only [List.cons_append, List.nil_append]
      rw [parseStrBody.eq_def]
      simp [unescape, ih]
    by_cases h5 : c = '\t'
    · subst h5
      have he : escChar '\t' = ['\\', 't'] := by decide
      rw [he]
      simp only [List.cons_append, List.nil_append]
      rw [parseStrBody.eq_def]
      simp [unescape, ih]
    by_cases h6 : c.toNat = 8
    · have hc : c = '\x08' := by
        have h := Char.ofNat_toNat c
        rw [h6] at h
        exact h.symm.trans (by decide)
      subst hc
      have he : escChar '\x08' = ['\\', 'b'] := by decide
      rw [he]
      simp only [List.cons_append, List.nil_append]
      rw [parseStrBody.eq_def]
      simp [unescape, ih]
    by_cases h7 : c.toNat = 12
    · have hc : c = '\x0c' := by
        have h := Char.ofNat_toNat c
        rw [h7] at h
        exact h.symm.trans (by decide)
      subst hc
      have he : escChar '\x0c' = ['\\', 'f'] := by decide
      rw [he]
      simp only [List.cons_append, List.nil_append]
      rw [parseStrBody.eq_def]
      simp [unescape, ih]
    by_cases h8 : c.toNat < 32
    · have hdiv : c.toNat / 16 < 16 := by omega
      have hdm := Nat.div_add_mod c.toNat 16
      have hn : 4096 * 0 + 256 * 0 + 16 * (c.toNat / 16) + c.toNat % 16 = c.toNat := by
        omega
      have h0 : hexVal '0' = some 0 := by decide
      rw [escChar, if_neg h1, if_neg h2, if_neg h3, if_neg h4, if_neg h5,
        if_neg h6, if_neg h7, if_pos h8]
      simp only [List.cons_append, List.nil_append]
      rw [parseStrBody.eq_def]
      simp only [reduceIte, h0, hexVal_hexDigit _ hdiv,
        hexVal_hexDigit _ (Nat.mod_lt _ (by norm_num) : c.toNat % 16 < 16)]
      have hno : ¬(55296 ≤ c.toNat ∧ c.toNat < 57344) := by
        intro hcontra
        omega
      rw [hn, if_neg hno, Char.ofNat_toNat, ih]
      rfl
    · rw [escChar, if_neg h1, if_neg h2, if_neg h3, if_neg h4, if_neg h5,
        if_neg h6, if_neg h7, if_neg h8]
      simp only [List.cons_append, List.nil_append]
      rw [parseStrBody.eq_def]
      simp [h1, h2, h8, ih]

theorem skipWs_cons_ws (c : Char) (hc : isWs c = true) (l : List Char) :
    skipWs (c :: l) = skipWs l := by
  rw [skipWs.eq_def]
  simp [hc]

theorem skipWs_cons_not (c : Char) (hc : isWs c = false) (l : List Char) :
    skipWs (c :: l) = c :: l := by
  rw [skipWs.eq_def]
  simp [hc]

theorem skipWs_encStr (s tail : List Char) :
    skipWs (encStrD s ++ tail) = encStrD s ++ tail := by
  simp only [encStrD, List.cons_append]
  exact skipWs_cons_not '\"' (by decide) _

theorem parseJStr_enc (s rest : List Char) :
    parseJStr (encStrD s ++ rest) = some (s, rest) := by
  simp only [encStrD, List.cons_append, List.append_assoc, List.singleton_append]
  rw [parseJStr.eq_def]
  exact parseStrBody_esc s rest

theorem parseEntries_ws (c : Char) (hc : isWs c = true) :
    ∀ (fuel : Nat) (input : List Char),
      parseEntries fuel (c :: input) = parseEntries fuel input := by
  intro fuel input
  cases fuel with
  | zero => rfl
  | succ f => simp only [parseEntries, skipWs_cons_ws c hc]

theorem parseObj_ws (c : Char) (hc : isWs c = true) :
    ∀ (fuel : Nat) (input : List Char),
      parseObj fuel (c :: input) = parseObj fuel input := by
  intro fuel input
  simp only [parseObj, skipWs_cons_ws c hc]

theorem parseEntries_print :
    ∀ (m : List (List Char × List Char)) (k v : List Char) (fuel : Nat)
      (rest : List Char), m.length < fuel →
      parseEntries fuel
        (printEntriesD ((k, v) :: m) ++ '\n' :: ' ' :: ' ' :: '\x7d' :: rest) =
        some ((k, v) :: m, rest)
  | [], k, v, fuel, rest, hf => by
    obtain ⟨f, rfl⟩ : ∃ f, fuel = f + 1 := ⟨fuel - 1, by omega⟩
    simp only [printEntriesD, printEntryD, parseEntries, List.cons_append,
      List.append_assoc, List.singleton_append,
      skipWs_cons_ws ' ' (by decide), skipWs_cons_ws '\n' (by decide),
      skipWs_cons_not ':' (by decide), skipWs_cons_not '\x7d' (by decide),
      skipWs_encStr, parseJStr_enc]
  | (k₂, v₂) :: m', k, v, fuel, rest, hf => by
    obtain ⟨f, rfl⟩ : ∃ f, fuel = f + 1 := ⟨fuel - 1, by omega⟩
    have ih := parseEntries_print m' k₂ v₂ f rest (by
      simp only [List.length_cons] at hf
      omega)
    simp only [printEntriesD, printEntryD, parseEntries, List.cons_append,
      List.append_assoc, List.singleton_append,
      skipWs_cons_ws ' ' (by decide), skipWs_cons_ws '\n' (by decide),
      skipWs_cons_not ':' (by decide), skipWs_cons_not ',' (by decide),
      skipWs_cons_not '\x7d' (by decide),
      skipWs_encStr, parseJStr_enc, parseEntries_ws '\n' (by decide)]
    simp only [printEntriesD, printEntryD, List.cons_append, List.append_assoc,
      List.singleton_append] at ih
    rw [ih]

theorem parseObj_print (m : List (List Char × List Char)) (fuel : Nat)
    (hf : m.length < fuel) (rest : List Char) :
    parseObj fuel (printObjD m ++ rest) = some (m, rest) := by
  cases m with
  | nil =>
    simp only [printObjD, List.cons_append, List.nil_append,
      List.singleton_append, parseObj,
      skipWs_cons_not '\x7b' (by decide), skipWs_cons_not '\x7d' (by decide)]
    simp
  | cons e m' =>
    obtain ⟨k, v⟩ := e
    have hp := parseEntries_print m' k v fuel rest (by
      simp only [List.length_cons] at hf
      omega)
    cases m' with
    | nil =>
      simp only [printEntriesD, printEntryD, encStrD, List.cons_append,
        List.nil_append, List.append_assoc, List.singleton_append] at hp
      simp only [printObjD, parseObj, printEntriesD, printEntryD, encStrD,
        List.cons_append, List.nil_append, List.append_assoc, List.singleton_append,
        skipWs_cons_not '\x7b' (by decide), skipWs_cons_ws '\n' (by decide),
        skipWs_cons_ws ' ' (by decide), skipWs_cons_not '\"' (by decide),
        parseEntries_ws '\n' (by decide)]
      simp only [hp]
      rw [if_neg (by decide : ¬('\"' : Char) = '\x7d')]
      simp
    | cons e₂ m'' =>
      simp only [printEntriesD, printEntryD, encStrD, List.cons_append,
        List.nil_append, List.append_assoc, List.singleton_append] at hp
      simp only [printObjD, parseObj, printEntriesD, printEntryD, encStrD,
        List.cons_append, List.nil_append, List.append_assoc, List.singleton_append,
        skipWs_cons_not '\x7b' (by decide), skipWs_cons_ws '\n' (by decide),
        skipWs_cons_ws ' ' (by decide), skipWs_cons_not '\"' (by decide),
        parseEntries_ws '\n' (by decide)]
      simp only [hp]
      rw [if_neg (by decide : ¬('\"' : Char) = '\x7d')]
      simp

theorem printEntriesD_len :
    ∀ m : List (List Char × List Char), m.length ≤ (printEntriesD m).length
  | [] => by simp [printEntriesD]
  | [e] => by
    simp [printEntriesD, printEntryD, List.length_cons, List.length_append]
  | e :: e₂ :: m'' => by
    have ih := printEntriesD_len (e₂ :: m'')
    simp only [printEntriesD, List.length_cons, List.length_append] at ih ⊢
    omega

theorem printObjD_len (m : List (List Char × List Char)) :
    m.length ≤ (printObjD m).length := by
  cases m with
  | nil => simp [printObjD]
  | cons e m' =>
    have h := printEntriesD_len (e :: m')
    simp only [printObjD, List.length_cons, List.length_append] at h ⊢
    omega

theorem parseStoreD_print (md : List (List Char × List Char)) :
    parseStoreD ('\x7b' :: '\n' :: ' ' :: ' ' :: encStrD "strings".data ++ ':' :: ' ' ::
      printObjD md ++ '\n' :: ['\x7d']) = some md := by
  have hobj : ∀ fuel, md.length < fuel →
      parseObj fuel (printObjD md ++ '\n' :: ['\x7d']) = some (md, '\n' :: ['\x7d']) :=
    fun fuel hf => parseObj_print md fuel hf _
  simp only [parseStoreD, List.cons_append, List.append_assoc,
    List.singleton_append, List.nil_append,
    skipWs_cons_not '\x7b' (by decide), skipWs_cons_ws '\n' (by decide),
    skipWs_cons_ws ' ' (by decide), skipWs_cons_not ':' (by decide),
    skipWs_encStr, parseJStr_enc, parseObj_ws ' ' (by decide)]
  rw [if_pos trivial]
  rw [hobj _ (by
    have hb := printObjD_len md
    simp only [List.length_append, List.length_cons]
    omega)]
  simp only [skipWs_cons_ws '\n' (by decide), skipWs_cons_not '\x7d' (by decide)]
  rfl

theorem from_str_to_string_pretty (ms : MemStore) :
    from_str (to_string_pretty ms) = some ms := by
  obtain ⟨es⟩ := ms
  have hdata : ∀ l : List Char, (String.mk l).data = l := fun l => rfl
  unfold from_str to_string_pretty
  rw [hdata, parseStoreD_print]
  have hconv : (es.map (fun e => (e.1.data, e.2.data))).map
      (fun e => (String.mk e.1, String.mk e.2)) = es := by
    rw [List.map_map]
    have : ((fun e : List Char × List Char => (String.mk e.1, String.mk e.2)) ∘
        fun e : String × String => (e.1.data, e.2.data)) = id :=
      funext fun e => rfl
    rw [this, List.map_id]
  simp only [Option.map_some', hconv]

/-- Claim C5: for every in-memory store state, `write()` followed by
`load()` on a freshly constructed `PersistentStore` over the same directory
yields exactly the string map that was written (the loaded snapshot
deserializes to the written entries). -/
theorem write_then_load_roundtrip (m : List (String × String)) (wb : Bool)
    (fs : Option String) :
    (PersistentStore.mk ⟨[]⟩ false).load ((PersistentStore.mk ⟨m⟩ wb).write fs) =
      .ok (PersistentStore.mk ⟨m⟩ false, some (to_string_pretty ⟨m⟩)) := by
  have hne : to_string_pretty (⟨m⟩ : MemStore) ≠ "" := by
    intro h
    have hd := congrArg String.data h
    simp [to_string_pretty] at hd
  unfold PersistentStore.write PersistentStore.load load_store
  simp only [if_neg hne, from_str_to_string_pretty]

/-- Claim C6 (amended): when the snapshot file holds non-empty content that
fails to deserialize, `from_existing` does not return the error as an `Err`
result — the `.expect("unable to load store")` on `load()`'s result makes
store construction panic with that message (so the failure is fatal and not
silently recovered, but it is a panic, not a returned `Err`). -/
theorem from_existing_panics_on_corrupt (c : String) (h1 : c ≠ "")
    (h2 : from_str c = none) :
    from_existing (some c) = .panicked "unable to load store" := by
  unfold from_existing PersistentStore.load load_store
  simp [h1, h2]

/-- Claim C6 counterexample: on the concrete corrupt snapshot content
`"corrupt"`, `from_existing` evaluates to the panic outcome — not to an
`ioErr` as the claim states. -/
theorem from_existing_corrupt_counterexample :
    from_existing (some "corrupt") = .panicked "unable to load store" := by
  decide

/-- Witness for C6 at a different concrete corrupt content. -/
theorem from_existing_panics_on_corrupt_witness :
    from_existing (some "not json!!") = .panicked "unable to load store" :=
  from_existing_panics_on_corrupt "not json!!" (by decide) (by decide)

end RubinSrc

-- Sanity anchors for the snapshot codec model.
theorem sanity_anchor_1 : RubinSrc.to_string_pretty ⟨[]⟩ =
    "\x7b\n  \"strings\": \x7b\x7d\n\x7d" := by decide

theorem sanity_anchor_2 : RubinSrc.from_str (RubinSrc.to_string_pretty ⟨[("a", "b")]⟩) =
    some ⟨[("a", "b")]⟩ := by decide

theorem sanity_anchor_3 : RubinSrc.from_str (RubinSrc.to_string_pretty ⟨[("k\n1", "v \"q\""), ("", "x")]⟩) =
    some ⟨[("k\n1", "v \"q\""), ("", "x")]⟩ := by decide

theorem sanity_anchor_4 : RubinSrc.from_str "corrupt" = none := by decide

-- Sanity anchors reproducing the unit tests of `net/parser.rs`.
theorem sanity_anchor_5 : Rubin.parse_request "SET::arg1 arg2" =
    .ok ⟨.StringSet, ["arg1", "arg2"]⟩ := by decide

theorem sanity_anchor_6 : Rubin.parse_request "SET::arg1" =
    .error (.InvalidMessage "message failed validation") := by decide

theorem sanity_anchor_7 : Rubin.parse_request "SGET:argumetns blahg" =
    .error (.InvalidFormat "invalid operation: SGET:argumetns blahg") := by decide

theorem sanity_anchor_8 : Rubin.Operation.from_string "SOMETHING" = .Error := by decide

theorem sanity_anchor_9 : Rubin.Operation.from_string "set" = .StringSet := by decide

-- Handler sanity anchors (spec §8 scenarios 1, 2 and the NOOP fallthrough).
theorem sanity_anchor_10 : Rubin.handler "SET::user:1000 rebecca" ⟨⟨[]⟩⟩ =
    (⟨⟨[("user:1000", "rebecca")]⟩⟩, "SET::OK\n") := by decide

theorem sanity_anchor_11 : Rubin.handler "GET::missing-key" ⟨⟨[]⟩⟩ = (⟨⟨[]⟩⟩, "GET::\n") := by decide

theorem sanity_anchor_12 : Rubin.handler "INCR::counter" ⟨⟨[]⟩⟩ =
    (⟨⟨[]⟩⟩, "NOOP::nothing to do\n") := by decide
